import Mathlib

/-!
Shallow embedding of `paramfiles/demo_mock_params.py` from the spatialsed
repository: the model parameter catalog (`model_params`), the model factory
(`load_model`), the mock observation generator (`load_obs`), the
multi-component source (`SpatialSource.get_galaxy_spectrum` /
`SpatialSource.get_spectrum`) and the flux clamp of `SpatialSedModel.sed`.

Modelling conventions:
* Python floats are rationals (`ℚ`); numpy arrays are lists.
* Parameter dictionaries become structures; optional dictionary keys become
  `Option` fields.
* Calls into the external libraries (the inner python-FSPS engine reached
  through `self.ssp`, sedpy's `getSED`, astropy's `cosmo.luminosity_distance`)
  are explicit function arguments (oracles): the module under analysis only
  composes them.
* Code paths that raise a Python exception are modelled with `Except String`:
  the notable ones are the reference to `chebval` (a name that is never
  imported by the module) and the reference to `filter_ind` on the
  `filters is None` path (a local that is only assigned on the
  `filters is not None` path).
-/

namespace SpatialSed

/-- Initial values stored in the parameter catalog are Python numbers
(floats or ints, both modelled as `ℚ`) or booleans. -/
inductive PVal where
  | num : ℚ → PVal
  | bool : Bool → PVal
deriving DecidableEq, Repr

/-- Priors attached to catalog entries: `priors.TopHat(mini, maxi)` or
`priors.LogUniform(mini, maxi)`; entries declared with `prior: None` carry
no prior (`Option.none` at the use site). -/
inductive Prior where
  | topHat : ℚ → ℚ → Prior
  | logUniform : ℚ → ℚ → Prior
deriving DecidableEq, Repr

/-- One entry of `model_params`: the dictionary keys `name`, `N`, `isfree`,
`init`, `init_disp` (absent on most fixed entries), `reinit` (present only on
`dust2`) and `prior`.  The display-only `units` strings are omitted. -/
structure ParamSpec where
  name : String
  N : ℕ
  isfree : Bool
  init : PVal
  init_disp : Option ℚ
  reinit : Bool
  prior : Option Prior
deriving DecidableEq, Repr

/-- The module-level parameter catalog built by the successive
`model_params.append({...})` statements, in source order. -/
def model_params : List ParamSpec :=
  [ ⟨"zred", 1, false, .num (1/10), none, false, some (.topHat 0 4)⟩,
    ⟨"sfh", 1, false, .num 4, none, false, none⟩,
    ⟨"mass", 2, true, .num 10000000000, some 1000000000, false,
      some (.logUniform 100000000 1000000000000)⟩,
    ⟨"logzsol", 2, true, .num (-(3/10)), some (3/10), false,
      some (.topHat (-(3/2)) (19/100))⟩,
    ⟨"pmetals", 1, false, .num (-99), none, false, none⟩,
    ⟨"tau", 2, true, .num 1, some (1/2), false, some (.logUniform (101/1000) 100)⟩,
    ⟨"tage", 2, true, .num 5, some 3, false, some (.topHat (1/100) 14)⟩,
    ⟨"dust2", 2, true, .num (35/100), some (3/10), true, some (.topHat 0 2)⟩,
    ⟨"dust_index", 1, false, .num (-(7/10)), none, false, none⟩,
    ⟨"dust1_index", 1, false, .num (-1), none, false, none⟩,
    ⟨"dust_type", 1, false, .num 0, none, false, none⟩,
    ⟨"add_dust_emission", 1, false, .bool true, none, false, none⟩,
    ⟨"duste_umin", 1, false, .num 1, none, false, none⟩,
    ⟨"duste_qpah", 1, false, .num 2, none, false, none⟩,
    ⟨"add_neb_emission", 1, false, .bool false, none, false, none⟩,
    ⟨"gas_logz", 1, false, .num 0, none, false, some (.topHat (-2) (1/2))⟩,
    ⟨"gas_logu", 1, false, .num (-2), none, false, some (.topHat (-4) (-1))⟩,
    ⟨"phot_jitter", 1, false, .num 0, none, false, some (.topHat 0 (1/5))⟩ ]

/-- Claim C1 (counterexample): the catalog does not have 17 entries — it has
18, so the claimed count is false. -/
theorem model_params_length_ne_17 : ¬ (model_params.length = 17) := by decide

/-- Claim C1 (amended): the catalog contains exactly 18 entries, and the
name / multiplicity / free-flag triples are exactly the ones enumerated in
the parameter table, in order. -/
theorem model_params_catalog :
    model_params.length = 18 ∧
    model_params.map (fun p => (p.name, p.N, p.isfree)) =
      [("zred", 1, false), ("sfh", 1, false), ("mass", 2, true),
       ("logzsol", 2, true), ("pmetals", 1, false), ("tau", 2, true),
       ("tage", 2, true), ("dust2", 2, true), ("dust_index", 1, false),
       ("dust1_index", 1, false), ("dust_type", 1, false),
       ("add_dust_emission", 1, false), ("duste_umin", 1, false),
       ("duste_qpah", 1, false), ("add_neb_emission", 1, false),
       ("gas_logz", 1, false), ("gas_logu", 1, false),
       ("phot_jitter", 1, false)] := by
  constructor <;> rfl

/-- Claim C9: the free entries of the catalog, in catalog order, are exactly
mass, logzsol, tau, tage, dust2, each with multiplicity 2, so the Theta
vector (concatenation of the free values) has length 10. -/
theorem free_params_theta :
    (model_params.filter (fun p => p.isfree)).map (fun p => (p.name, p.N)) =
      [("mass", 2), ("logzsol", 2), ("tau", 2), ("tage", 2), ("dust2", 2)] ∧
    ((model_params.filter (fun p => p.isfree)).map (fun p => p.N)).sum = 10 := by
  constructor <;> rfl

/-- Overwrite the `init` key of a catalog entry, everything else unchanged
(the embedding of the in-place assignment
`model_params[zind]["init"] = zred`). -/
def setInit (p : ParamSpec) (v : PVal) : ParamSpec :=
  ⟨p.name, p.N, p.isfree, v, p.init_disp, p.reinit, p.prior⟩

/-- `load_model(zred, **extras)`: look up the index of the entry named
`zred` (as `pn.index("zred")`, which raises `ValueError` — modelled `none` —
when the name is absent) and overwrite that entry's initial value with the
supplied redshift, returning the mutated catalog that the constructed
`SpatialSedModel` then consumes. -/
def load_model (catalog : List ParamSpec) (zred : ℚ) : Option (List ParamSpec) :=
  match catalog.findIdx? (fun p => p.name == "zred") with
  | none => none
  | some zind =>
      some (catalog.set zind
        (setInit (catalog.getD zind ⟨"", 0, false, .num 0, none, false, none⟩)
          (.num zred)))

/-- Claim C6: two successive `load_model` calls on the shared catalog with
redshifts `z1` then `z2` leave the catalog with its `zred` entry (the head)
holding `init = z2` — the most recent call — while every other field of that
entry and every other catalog entry are exactly the original ones. -/
theorem load_model_twice (z1 z2 : ℚ) (h : z1 ≠ z2) :
    (load_model model_params z1).bind (fun cat => load_model cat z2) =
      some (⟨"zred", 1, false, .num z2, none, false, some (.topHat 0 4)⟩ ::
        model_params.tail) := by
  rfl

/-- Witness for C6 at the concrete redshift pair (0, 1). -/
theorem load_model_twice_witness :
    ((0 : ℚ) ≠ 1) ∧
    (load_model model_params 0).bind (fun cat => load_model cat 1) =
      some (⟨"zred", 1, false, .num 1, none, false, some (.topHat 0 4)⟩ ::
        model_params.tail) :=
  ⟨by norm_num, load_model_twice 0 1 (by norm_num)⟩

/-- Pointwise sum of two equal-length vectors. -/
def vecAdd (a b : List ℚ) : List ℚ := List.zipWith (· + ·) a b

/-- `np.dot(mass, np.array(spectra))` for a weight vector against a stack of
equal-length rows: the weighted sum of the rows. -/
def massDot (mass : List ℚ) (spectra : List (List ℚ)) : List ℚ :=
  (List.zipWith (fun m s => s.map (fun x => m * x)) mass spectra).foldr vecAdd
    (List.replicate (spectra.headD []).length 0)

/-- `np.dot` of two flat vectors. -/
def dotQ (a b : List ℚ) : ℚ := (List.zipWith (· * ·) a b).sum

/-- `SpatialSource.get_galaxy_spectrum`: loop over the mass components,
drawing each component's rest-frame spectrum and surviving-mass fraction from
the inner engine (the oracles `sspSpec` and `sspMfrac`, indexed by the
component that `update_component(i)` points the engine at, with shared
wavelength grid `wave`); if `mass_units` is `"mstar"` convert masses to
formed mass by dividing by the fractions; stack the component spectra with
the mass-weighted composite `np.dot(mass, spectra) / mass.sum()` as the final
row, and likewise append the composite fraction.  (`np.squeeze` is the
identity in the multi-component, many-wavelength regime modelled here.) -/
def get_galaxy_spectrum (sspSpec : ℕ → List ℚ) (sspMfrac : ℕ → ℚ)
    (wave : List ℚ) (massParam : List ℚ) (massUnitsMstar : Bool) :
    List ℚ × List (List ℚ) × List ℚ :=
  let spectra := (List.range massParam.length).map sspSpec
  let mfrac := (List.range massParam.length).map sspMfrac
  let mass := if massUnitsMstar then List.zipWith (· / ·) massParam mfrac
    else massParam
  let spectrum := (massDot mass spectra).map (fun x => x / mass.sum)
  let mfrac_sum := dotQ mass mfrac / mass.sum
  (wave, spectra ++ [spectrum], mfrac ++ [mfrac_sum])

/-- Adding the all-zero vector of matching length is the identity. -/
theorem vecAdd_replicate_zero (v : List ℚ) :
    vecAdd v (List.replicate v.length 0) = v := by
  induction v with
  | nil => rfl
  | cons x xs ih => simpa [vecAdd, List.replicate_succ] using ih

/-- Pointwise sum of two scalings of the same vector is a single scaling. -/
theorem vecAdd_map_same (a b : ℚ) (s : List ℚ) :
    vecAdd (s.map (fun x => a * x)) (s.map (fun x => b * x)) =
      s.map (fun x => (a + b) * x) := by
  induction s with
  | nil => rfl
  | cons x xs ih =>
      simp only [List.map_cons, vecAdd, List.zipWith_cons_cons, List.cons.injEq]
      exact ⟨by ring, ih⟩

/-- A two-row weighted stack of one repeated row is the row scaled by the
total weight. -/
theorem massDot_pair_same (a b : ℚ) (s : List ℚ) :
    massDot [a, b] [s, s] = s.map (fun x => (a + b) * x) := by
  have h0 : massDot [a, b] [s, s] =
      vecAdd (s.map (fun x => a * x))
        (vecAdd (s.map (fun x => b * x)) (List.replicate s.length 0)) := rfl
  rw [h0, show List.replicate s.length (0 : ℚ) =
      List.replicate (s.map (fun x => b * x)).length 0 by rw [List.length_map],
    vecAdd_replicate_zero, vecAdd_map_same]

/-- Mass-weighted average of one repeated row reproduces the row. -/
theorem massDot_pair_same_avg (a b : ℚ) (s : List ℚ) (hab : a + b ≠ 0) :
    (massDot [a, b] [s, s]).map (fun x => x / List.sum [a, b]) = s := by
  rw [massDot_pair_same, List.map_map]
  have hs : List.sum [a, b] = a + b := by simp
  have : ∀ x : ℚ, ((a + b) * x) / List.sum [a, b] = x := by
    intro x
    rw [hs, mul_div_cancel_left₀ _ hab]
  simpa [Function.comp] using List.map_congr_left (fun x _ => this x)

/-- Mass-weighted average of one repeated fraction reproduces the fraction. -/
theorem dotQ_pair_same_avg (a b f : ℚ) (hab : a + b ≠ 0) :
    dotQ [a, b] [f, f] / List.sum [a, b] = f := by
  simp only [dotQ, List.zipWith_cons_cons, List.zipWith_nil_right, List.sum_cons,
    List.sum_nil]
  field_simp
  ring

/-- Claim C7: in a two-component configuration where both components give the
same rest-frame spectrum `s` and the same surviving-mass fraction `f`, and
the masses are positive, the composite (final stacked) spectrum returned by
`get_galaxy_spectrum` is `s` itself and the composite fraction is `f`
(for either mass-unit convention; under the `"mstar"` convention the shared
fraction must be a genuine positive fraction). -/
theorem composite_of_identical_components (wave s : List ℚ) (f m1 m2 : ℚ)
    (mu : Bool) (h1 : 0 < m1) (h2 : 0 < m2) (hf : mu = true → 0 < f) :
    (get_galaxy_spectrum (fun _ => s) (fun _ => f) wave [m1, m2] mu).2.1 =
      [s, s, s] ∧
    (get_galaxy_spectrum (fun _ => s) (fun _ => f) wave [m1, m2] mu).2.2 =
      [f, f, f] := by
  cases mu with
  | false =>
      have hab : m1 + m2 ≠ 0 := (by positivity : (0 : ℚ) < m1 + m2).ne'
      constructor
      · show [s, s] ++
          [(massDot [m1, m2] [s, s]).map (fun x => x / List.sum [m1, m2])] =
            [s, s, s]
        rw [massDot_pair_same_avg _ _ _ hab]
        rfl
      · show [f, f] ++ [dotQ [m1, m2] [f, f] / List.sum [m1, m2]] = [f, f, f]
        rw [dotQ_pair_same_avg _ _ _ hab]
        rfl
  | true =>
      have hfpos : 0 < f := hf rfl
      have hab : m1 / f + m2 / f ≠ 0 :=
        (by positivity : (0 : ℚ) < m1 / f + m2 / f).ne'
      constructor
      · show [s, s] ++
          [(massDot [m1 / f, m2 / f] [s, s]).map
            (fun x => x / List.sum [m1 / f, m2 / f])] = [s, s, s]
        rw [massDot_pair_same_avg _ _ _ hab]
        rfl
      · show [f, f] ++
          [dotQ [m1 / f, m2 / f] [f, f] / List.sum [m1 / f, m2 / f]] =
            [f, f, f]
        rw [dotQ_pair_same_avg _ _ _ hab]
        rfl

/-- Witness for C7 at a concrete two-component configuration. -/
theorem composite_of_identical_components_witness :
    (get_galaxy_spectrum (fun _ => [1, 2]) (fun _ => (1 : ℚ)/2) [1] [1, 2]
      true).2.1 = [[1, 2], [1, 2], [1, 2]] ∧
    (get_galaxy_spectrum (fun _ => [1, 2]) (fun _ => (1 : ℚ)/2) [1] [1, 2]
      true).2.2 = [1/2, 1/2, 1/2] :=
  composite_of_identical_components [1] [1, 2] (1/2) 1 2 true (by norm_num)
    (by norm_num) (fun _ => by norm_num)

/-- A sedpy filter object as this module sees it: a `name` (the only
attribute the module reads, used for deduplication) and an otherwise opaque
transmission-curve payload. -/
structure FilterBand where
  name : String
  curve : ℕ
deriving DecidableEq, Repr

/-- `np.unique` on a list of names: the distinct values in ascending order. -/
def npUnique (l : List String) : List String :=
  List.insertionSort (fun a b => a ≤ b) l.dedup

/-- `np.unique(..., return_index=True)`: for each unique value, the index of
its first occurrence in the original list. -/
def returnIndex (l u : List String) : List ℕ := u.map (fun s => l.indexOf s)

/-- `np.unique(..., return_inverse=True)`: for each original position, the
position of its value in the unique list. -/
def returnInverse (l u : List String) : List ℕ := l.map (fun s => u.indexOf s)

/-- The keys `get_spectrum` reads from `self.params` (fed by `update` from
the model parameter mapping); optional dictionary keys are `Option` fields. -/
structure SParams where
  zred : Option ℚ
  wavecal_coeffs : Option (List ℚ)
  lumdist : Option ℚ
  mass : List ℚ
  mass_units_mstar : Bool

/-- The constants imported from `prospect.sources.constants` (`lightspeed`,
`jansky_cgs`, `to_cgs_at_10pc`); their numeric values never matter for the
claims, so they stay abstract. -/
structure SpsConsts where
  lightspeed : ℚ
  jansky_cgs : ℚ
  to_cgs : ℚ

/-- The `component` argument of `get_spectrum`: either the scalar default
`-1` or the per-filter integer array the mock passes as `obs["component"]`. -/
inductive Component where
  | scalar : ℤ → Component
  | vec : List ℤ → Component

/-- Python/numpy row indexing with a possibly negative index: normalize and
bounds-check, `none` standing for `IndexError`. -/
def pyIdx (n : ℕ) (c : ℤ) : Option ℕ :=
  let r : ℤ := if c < 0 then (n : ℤ) + c else c
  if 0 ≤ r ∧ r < n then some r.toNat else none

/-- `pyIdx` over a numpy index array: all entries must be in range. -/
def pyIdxList (n : ℕ) : List ℤ → Option (List ℕ)
  | [] => some []
  | c :: cs =>
      match pyIdx n c, pyIdxList n cs with
      | some r, some rs => some (r :: rs)
      | _, _ => none

/-- The flux-density conversion fed to `getSED` at line 212:
`lightspeed / wa ** 2 * sa * to_cgs`, per wavelength point. -/
def convFlux (c : SpsConsts) (wa row : List ℚ) : List ℚ :=
  List.zipWith (fun w x => c.lightspeed / w ^ 2 * x * c.to_cgs) wa row

/-- The photometry matrix of `get_spectrum` after the three per-entry
rescalings of lines 212-213 (projection to maggies, abstracted into the
oracle `maggiesOf` standing for `10 ** (-0.4 * getSED(...))`), 231
(`phot /= dfactor`) and 238 (`phot * mass[:, None]`): one row per spectrum
row, one column per projected filter. -/
def photMatrix (c : SpsConsts) (maggiesOf : List ℚ → List ℚ → FilterBand → ℚ)
    (wa : List ℚ) (dfactor : ℚ) (mass : List ℚ) (sa : List (List ℚ))
    (flist : List FilterBand) : List (List ℚ) :=
  List.zipWith (fun m row => row.map (fun x => x * m)) mass
    ((sa.map (fun row => flist.map (fun f => maggiesOf wa (convFlux c wa row) f))).map
      (fun row => row.map (fun x => x / dfactor)))

/-- Lines 205-213 and 238: deduplicate the filters by name, project the
spectra against the unique filters only (through `photMatrix`, which also
carries the later distance and mass rescalings of the matrix), and select
`phot[component, filter_ind]` — the requested component row(s), re-expanded
to the original filter order through the inverse-index mapping. -/
def photSelect (c : SpsConsts)
    (maggiesOf : List ℚ → List ℚ → FilterBand → ℚ) (wa : List ℚ)
    (dfactor : ℚ) (mass : List ℚ) (sa : List (List ℚ))
    (fs : List FilterBand) (component : Component) : Except String (List ℚ) :=
  let fnames := fs.map FilterBand.name
  let unique_names := npUnique fnames
  let uinds := returnIndex fnames unique_names
  let filter_ind := returnInverse fnames unique_names
  let unique_filters := uinds.map (fun i => fs.getD i ⟨"", 0⟩)
  let phot2 := photMatrix c maggiesOf wa dfactor mass sa unique_filters
  match component with
  | .scalar ci =>
      match pyIdx phot2.length ci with
      | none => .error "IndexError"
      | some r => .ok (filter_ind.map (fun k => (phot2.getD r []).getD k 0))
  | .vec cs =>
      match pyIdxList phot2.length cs with
      | none => .error "IndexError"
      | some rs =>
          .ok (List.zipWith (fun r k => (phot2.getD r []).getD k 0) rs filter_ind)

/-- The selection step as the round-trip claim describes the dedup-free
alternative: project every supplied filter directly, in the original order,
and select the requested component row(s). -/
def photSelectDirect (c : SpsConsts)
    (maggiesOf : List ℚ → List ℚ → FilterBand → ℚ) (wa : List ℚ)
    (dfactor : ℚ) (mass : List ℚ) (sa : List (List ℚ))
    (fs : List FilterBand) (component : Component) : Except String (List ℚ) :=
  let phot2 := photMatrix c maggiesOf wa dfactor mass sa fs
  match component with
  | .scalar ci =>
      match pyIdx phot2.length ci with
      | none => .error "IndexError"
      | some r => .ok (phot2.getD r [])
  | .vec cs =>
      match pyIdxList phot2.length cs with
      | none => .error "IndexError"
      | some rs =>
          .ok (List.zipWith (fun r k => (phot2.getD r []).getD k 0) rs
            (List.range fs.length))

/-- `SpatialSource.get_spectrum`: draw the rest-frame component-plus-composite
spectra from `get_galaxy_spectrum`, redshift the wavelength grid, project the
(deduplicated) filters, apply distance dimming and mass normalization, and
select the requested component rows of the photometry.  Python exceptions are
`Except.error`: the wavelength-calibration branch evaluates `chebval`, a name
the module never imports (`NameError`), and the `filters is None` path leaves
the local `filter_ind` unassigned before line 238 reads it
(`UnboundLocalError`); out-of-range component indices are `IndexError`. -/
def get_spectrum (c : SpsConsts)
    (sspSpec : ℕ → List ℚ) (sspMfrac : ℕ → ℚ) (wave : List ℚ)
    (lumdistOf : ℚ → ℚ)
    (maggiesOf : List ℚ → List ℚ → FilterBand → ℚ)
    (p : SParams) (outwave : Option (List ℚ))
    (filters : Option (List FilterBand)) (component : Component) :
    Except String (List (List ℚ) × List ℚ × List ℚ) :=
  let g := get_galaxy_spectrum sspSpec sspMfrac wave p.mass p.mass_units_mstar
  let spectrum := g.2.1
  let mfrac := g.2.2
  let a : ℚ := 1 + p.zred.getD 0
  let af := a
  if p.wavecal_coeffs.isSome then
    .error "NameError: name chebval is not defined"
  else
    let b : ℚ := 0
    let wa := wave.map (fun w => w * (a + b))
    let sa := spectrum.map (fun row => row.map (fun x => x * af))
    let _outwave := outwave.getD wa
    let zred := p.zred.getD 0
    let dfactor : ℚ :=
      if zred = 0 ∨ p.lumdist.isSome then (p.lumdist.getD (1/100000) * 100000) ^ 2
      else (lumdistOf zred * 100000) ^ 2
    let sa2 := sa.map (fun row =>
      row.map (fun x => x * (c.to_cgs / dfactor / (3631 * c.jansky_cgs))))
    let mass := p.mass ++ [p.mass.sum]
    let sa3 := List.zipWith (fun m row => row.map (fun x => x * m)) mass sa2
    match filters with
    | some fs =>
        (photSelect c maggiesOf wa dfactor mass sa fs component).map
          (fun phot => (sa3, phot, mfrac))
    | none =>
        .error "UnboundLocalError: local variable filter_ind referenced before assignment"

/-- The variant of `get_spectrum` described by the spec sentence under test in
the round-trip claim: identical except that the photometry is computed by
projecting every supplied filter directly, in the original order, with no
deduplication step. -/
def get_spectrum_nodedup (c : SpsConsts)
    (sspSpec : ℕ → List ℚ) (sspMfrac : ℕ → ℚ) (wave : List ℚ)
    (lumdistOf : ℚ → ℚ)
    (maggiesOf : List ℚ → List ℚ → FilterBand → ℚ)
    (p : SParams) (outwave : Option (List ℚ))
    (filters : Option (List FilterBand)) (component : Component) :
    Except String (List (List ℚ) × List ℚ × List ℚ) :=
  let g := get_galaxy_spectrum sspSpec sspMfrac wave p.mass p.mass_units_mstar
  let spectrum := g.2.1
  let mfrac := g.2.2
  let a : ℚ := 1 + p.zred.getD 0
  let af := a
  if p.wavecal_coeffs.isSome then
    .error "NameError: name chebval is not defined"
  else
    let b : ℚ := 0
    let wa := wave.map (fun w => w * (a + b))
    let sa := spectrum.map (fun row => row.map (fun x => x * af))
    let _outwave := outwave.getD wa
    let zred := p.zred.getD 0
    let dfactor : ℚ :=
      if zred = 0 ∨ p.lumdist.isSome then (p.lumdist.getD (1/100000) * 100000) ^ 2
      else (lumdistOf zred * 100000) ^ 2
    let sa2 := sa.map (fun row =>
      row.map (fun x => x * (c.to_cgs / dfactor / (3631 * c.jansky_cgs))))
    let mass := p.mass ++ [p.mass.sum]
    let sa3 := List.zipWith (fun m row => row.map (fun x => x * m)) mass sa2
    match filters with
    | some fs =>
        (photSelectDirect c maggiesOf wa dfactor mass sa fs component).map
          (fun phot => (sa3, phot, mfrac))
    | none =>
        .error "UnboundLocalError: local variable filter_ind referenced before assignment"

/-- Claim C2 (code bug): no call of `get_spectrum` with the `filters`
argument omitted returns normally, for any parameter mapping — line 238
reads the local `filter_ind`, which is assigned only on the
`filters is not None` path, raising `UnboundLocalError` (and when a
wavelength-calibration vector is present the `NameError` on `chebval` fires
even earlier); the spec instead promises a normal return with photometry 0.0. -/
theorem get_spectrum_no_filters_raises (c : SpsConsts)
    (sspSpec : ℕ → List ℚ) (sspMfrac : ℕ → ℚ) (wave : List ℚ)
    (lumdistOf : ℚ → ℚ) (maggiesOf : List ℚ → List ℚ → FilterBand → ℚ)
    (p : SParams) (outwave : Option (List ℚ)) (component : Component) :
    ∃ msg, get_spectrum c sspSpec sspMfrac wave lumdistOf maggiesOf p outwave
      none component = .error msg := by
  obtain ⟨z, wc, ld, m, mu⟩ := p
  cases wc with
  | none => exact ⟨_, rfl⟩
  | some coeffs => exact ⟨_, rfl⟩

/-- Claim C3 (code bug): any call of `get_spectrum` whose parameter mapping
contains `wavecal_coeffs` raises `NameError` at once, because `chebval` is
referenced at line 198 but never imported by the module; the Chebyshev
wavelength perturbation the spec describes is unreachable. -/
theorem get_spectrum_wavecal_raises (c : SpsConsts)
    (sspSpec : ℕ → List ℚ) (sspMfrac : ℕ → ℚ) (wave : List ℚ)
    (lumdistOf : ℚ → ℚ) (maggiesOf : List ℚ → List ℚ → FilterBand → ℚ)
    (zred lumdist : Option ℚ) (coeffs massp : List ℚ) (mus : Bool)
    (outwave : Option (List ℚ)) (filters : Option (List FilterBand))
    (component : Component) :
    get_spectrum c sspSpec sspMfrac wave lumdistOf maggiesOf
      ⟨zred, some coeffs, lumdist, massp, mus⟩ outwave filters component =
      .error "NameError: name chebval is not defined" := rfl

/-- A successful `pyIdx` lookup is in range. -/
theorem pyIdx_lt {n : ℕ} {ci : ℤ} {r : ℕ} (h : pyIdx n ci = some r) : r < n := by
  simp only [pyIdx] at h
  generalize hq : (if ci < 0 then (n : ℤ) + ci else ci) = q at h
  split at h
  · rename_i hc
    simp only [Option.some.injEq] at h
    omega
  · exact absurd h (by simp)

/-- Every entry of a successful `pyIdxList` lookup is in range. -/
theorem pyIdxList_mem {n : ℕ} : ∀ {cs : List ℤ} {rs : List ℕ},
    pyIdxList n cs = some rs → ∀ r ∈ rs, r < n := by
  intro cs
  induction cs with
  | nil =>
      intro rs h r hr
      simp only [pyIdxList, Option.some.injEq] at h
      subst h
      simp at hr
  | cons ci cs ih =>
      intro rs h r hr
      rw [pyIdxList] at h
      cases hc : pyIdx n ci with
      | none => rw [hc] at h; exact absurd h (by simp)
      | some r0 =>
          cases hl : pyIdxList n cs with
          | none => rw [hc, hl] at h; exact absurd h (by simp)
          | some rs0 =>
              rw [hc, hl] at h
              simp only [Option.some.injEq] at h
              subst h
              rcases List.mem_cons.1 hr with rfl | hr0
              · exact pyIdx_lt hc
              · exact ih hl r hr0

/-- Row count of the photometry matrix. -/
theorem photMatrix_length (c : SpsConsts)
    (maggiesOf : List ℚ → List ℚ → FilterBand → ℚ) (wa : List ℚ) (df : ℚ)
    (mass : List ℚ) (sa : List (List ℚ)) (flist : List FilterBand) :
    (photMatrix c maggiesOf wa df mass sa flist).length =
      min mass.length sa.length := by
  simp [photMatrix]

/-- An in-range row of the photometry matrix, as a per-filter map. -/
theorem photMatrix_getD (c : SpsConsts)
    (maggiesOf : List ℚ → List ℚ → FilterBand → ℚ) (wa : List ℚ) (df : ℚ)
    (mass : List ℚ) (sa : List (List ℚ)) (flist : List FilterBand) (r : ℕ)
    (hm : r < mass.length) (hs : r < sa.length) :
    (photMatrix c maggiesOf wa df mass sa flist).getD r [] =
      flist.map (fun f => maggiesOf wa (convFlux c wa sa[r]) f / df * mass[r]) := by
  have hr : r < (photMatrix c maggiesOf wa df mass sa flist).length := by
    rw [photMatrix_length]
    exact Nat.lt_min.2 ⟨hm, hs⟩
  rw [List.getD_eq_getElem _ _ hr]
  simp [photMatrix, List.getElem_zipWith, List.getElem_map, List.map_map,
    Function.comp]

/-- Core deduplication fact: reading the per-unique-filter projection list at
the inverse index of a member filter's name recovers that filter's own
projection, provided equally-named filters project equally. -/
theorem unique_expand_pointwise (proj : FilterBand → ℚ) (fs : List FilterBand)
    (hname : ∀ f ∈ fs, ∀ g ∈ fs, f.name = g.name → proj f = proj g)
    (f : FilterBand) (hf : f ∈ fs) :
    ((((returnIndex (fs.map FilterBand.name)
          (npUnique (fs.map FilterBand.name))).map
        (fun i => fs.getD i ⟨"", 0⟩)).map proj).getD
      ((npUnique (fs.map FilterBand.name)).indexOf f.name) 0) = proj f := by
  have hfL : f.name ∈ fs.map FilterBand.name := List.mem_map_of_mem _ hf
  have hfU : f.name ∈ npUnique (fs.map FilterBand.name) := by
    unfold npUnique
    rw [List.mem_insertionSort, List.mem_dedup]
    exact hfL
  have hk : (npUnique (fs.map FilterBand.name)).indexOf f.name <
      (npUnique (fs.map FilterBand.name)).length :=
    List.indexOf_lt_length.2 hfU
  rw [show ((returnIndex (fs.map FilterBand.name)
        (npUnique (fs.map FilterBand.name))).map
      (fun i => fs.getD i ⟨"", 0⟩)).map proj =
      (npUnique (fs.map FilterBand.name)).map
        (fun s => proj (fs.getD ((fs.map FilterBand.name).indexOf s) ⟨"", 0⟩)) by
    simp [returnIndex, List.map_map, Function.comp]]
  rw [List.getD_eq_getElem _ _ (by simpa using hk), List.getElem_map]
  rw [List.getElem_indexOf hk]
  have hjL : (fs.map FilterBand.name).indexOf f.name <
      (fs.map FilterBand.name).length :=
    List.indexOf_lt_length.2 hfL
  have hj : (fs.map FilterBand.name).indexOf f.name < fs.length := by
    simpa using hjL
  rw [List.getD_eq_getElem _ _ hj]
  refine hname _ (List.getElem_mem hj) f hf ?_
  have : (fs.map FilterBand.name)[(fs.map FilterBand.name).indexOf f.name] =
      f.name := List.getElem_indexOf hjL
  rwa [List.getElem_map] at this

/-- Re-expanding the deduplicated projections through the inverse-index
mapping reproduces the direct per-filter projections, in the original order. -/
theorem unique_expand (proj : FilterBand → ℚ) (fs : List FilterBand)
    (hname : ∀ f ∈ fs, ∀ g ∈ fs, f.name = g.name → proj f = proj g) :
    (returnInverse (fs.map FilterBand.name)
        (npUnique (fs.map FilterBand.name))).map
      (fun k => ((((returnIndex (fs.map FilterBand.name)
            (npUnique (fs.map FilterBand.name))).map
          (fun i => fs.getD i ⟨"", 0⟩)).map proj).getD k 0)) =
      fs.map proj := by
  unfold returnInverse
  rw [List.map_map, List.map_map]
  exact List.map_congr_left (fun f hf => unique_expand_pointwise proj fs hname f hf)

/-- Deduplicated-and-re-expanded photometry selection agrees with direct
per-filter projection whenever equally-named filters project equally. -/
theorem photSelect_eq_direct (c : SpsConsts)
    (maggiesOf : List ℚ → List ℚ → FilterBand → ℚ) (wa : List ℚ)
    (dfactor : ℚ) (mass : List ℚ) (sa : List (List ℚ))
    (fs : List FilterBand) (component : Component)
    (hname : ∀ f ∈ fs, ∀ g ∈ fs, f.name = g.name →
      ∀ w rowv, maggiesOf w rowv f = maggiesOf w rowv g) :
    photSelect c maggiesOf wa dfactor mass sa fs component =
      photSelectDirect c maggiesOf wa dfactor mass sa fs component := by
  unfold photSelect photSelectDirect
  simp only [photMatrix_length]
  cases component with
  | scalar ci =>
      dsimp only
      cases h : pyIdx (min mass.length sa.length) ci with
      | none => rfl
      | some r =>
          dsimp only
          have hr := pyIdx_lt h
          have hm : r < mass.length := (Nat.lt_min.1 hr).1
          have hs : r < sa.length := (Nat.lt_min.1 hr).2
          rw [photMatrix_getD c maggiesOf wa dfactor mass sa _ r hm hs,
            photMatrix_getD c maggiesOf wa dfactor mass sa fs r hm hs]
          exact congrArg Except.ok (unique_expand
            (fun f => maggiesOf wa (convFlux c wa sa[r]) f / dfactor * mass[r])
            fs (fun f hf g hg hn => by simp only [hname f hf g hg hn]))
  | vec cs =>
      dsimp only
      cases h : pyIdxList (min mass.length sa.length) cs with
      | none => rfl
      | some rs =>
          dsimp only
          refine congrArg Except.ok ?_
          apply List.ext_getElem
          · simp [returnInverse]
          · intro i h1 h2
            rw [List.getElem_zipWith, List.getElem_zipWith]
            have hi_rs : i < rs.length := by
              simpa using (Nat.lt_min.1 (by simpa using h1)).1
            have hi_fs : i < fs.length := by
              have := (Nat.lt_min.1 (by simpa using h1)).2
              simpa [returnInverse] using this
            have hrow := pyIdxList_mem h rs[i] (List.getElem_mem hi_rs)
            have hm : rs[i] < mass.length := (Nat.lt_min.1 hrow).1
            have hs : rs[i] < sa.length := (Nat.lt_min.1 hrow).2
            rw [photMatrix_getD c maggiesOf wa dfactor mass sa _ _ hm hs,
              photMatrix_getD c maggiesOf wa dfactor mass sa fs _ hm hs]
            have hi_ri : i < (returnInverse (fs.map FilterBand.name)
                (npUnique (fs.map FilterBand.name))).length := by
              simpa [returnInverse] using hi_fs
            have hind : (returnInverse (fs.map FilterBand.name)
                (npUnique (fs.map FilterBand.name)))[i] =
                (npUnique (fs.map FilterBand.name)).indexOf (fs[i].name) := by
              simp [returnInverse, List.getElem_map]
            rw [hind, List.getElem_range]
            rw [unique_expand_pointwise
              (fun f => maggiesOf wa (convFlux c wa sa[rs[i]]) f /
                dfactor * mass[rs[i]])
              fs (fun f hf g hg hn => by simp only [hname f hf g hg hn])
              fs[i] (List.getElem_mem hi_fs)]
            rw [List.getD_eq_getElem _ _ (by simpa using hi_fs),
              List.getElem_map]

/-- Claim C8: for any filter list (with repeated names or not), the result of
`get_spectrum` — whose photometry is computed on deduplicated filters and
re-expanded through the inverse-index mapping — coincides exactly with the
dedup-free variant that projects every filter directly in the original order,
provided equally-named filters have equal projections. -/
theorem get_spectrum_dedup_roundtrip (c : SpsConsts)
    (sspSpec : ℕ → List ℚ) (sspMfrac : ℕ → ℚ) (wave : List ℚ)
    (lumdistOf : ℚ → ℚ) (maggiesOf : List ℚ → List ℚ → FilterBand → ℚ)
    (p : SParams) (outwave : Option (List ℚ)) (fs : List FilterBand)
    (component : Component)
    (hname : ∀ f ∈ fs, ∀ g ∈ fs, f.name = g.name →
      ∀ w rowv, maggiesOf w rowv f = maggiesOf w rowv g) :
    get_spectrum c sspSpec sspMfrac wave lumdistOf maggiesOf p outwave
      (some fs) component =
    get_spectrum_nodedup c sspSpec sspMfrac wave lumdistOf maggiesOf p outwave
      (some fs) component := by
  obtain ⟨z, wc, ld, m, mu⟩ := p
  cases wc with
  | some coeffs => rfl
  | none =>
      unfold get_spectrum get_spectrum_nodedup
      dsimp only
      rw [photSelect_eq_direct c maggiesOf _ _ _ _ fs component hname]

/-- Witness for C8 at a concrete filter list with a repeated name. -/
theorem get_spectrum_dedup_roundtrip_witness :
    get_spectrum ⟨1, 1, 1⟩ (fun _ => [1]) (fun _ => 1) [1] (fun z => z)
        (fun _ _ f => if f.name = "a" then 1 else 2)
        ⟨some 0, none, none, [1], false⟩ none
        (some [⟨"a", 0⟩, ⟨"b", 1⟩, ⟨"a", 2⟩]) (.scalar (-1)) =
      get_spectrum_nodedup ⟨1, 1, 1⟩ (fun _ => [1]) (fun _ => 1) [1] (fun z => z)
        (fun _ _ f => if f.name = "a" then 1 else 2)
        ⟨some 0, none, none, [1], false⟩ none
        (some [⟨"a", 0⟩, ⟨"b", 1⟩, ⟨"a", 2⟩]) (.scalar (-1)) :=
  get_spectrum_dedup_roundtrip _ _ _ _ _ _ _ _ _ _
    (by intro f hf g hg hn w rowv; simp [hn])

/-- The observation dictionary assembled by `load_obs`; the deep-copied
`mock_params` diagnostic entry (an opaque copy of the model's parameter
mapping) is omitted. -/
structure Obs where
  filters : List FilterBand
  component : List ℤ
  wavelength : Option (List ℚ)
  maggies : List ℚ
  maggies_unc : List ℚ
  mock_snr : ℚ
  phot_mask : List Bool
  true_spectrum : List ℚ
  true_maggies : List ℚ

/-- `load_obs(snr, add_noise, **kwargs)`, lines 94-113: the deterministic
dataflow after the model evaluation.  `spec` and `phot` are the two outputs of
`mod.mean_model(mod.theta, obs, sps=sps)` (the external model evaluation),
`normalDraws` is the `np.random.normal(0, 1, len(phot))` sample vector
consumed when noise is enabled, and `filters`/`component` are the assembled
filter list and component tags from the discovery step. -/
def load_obs (filters : List FilterBand) (component : List ℤ)
    (spec phot normalDraws : List ℚ) (snr : ℚ) (add_noise : Bool) : Obs :=
  let pnoise_sigma := phot.map (fun x => x / snr)
  let maggies :=
    if add_noise then
      List.zipWith (· + ·) phot (List.zipWith (· * ·) normalDraws pnoise_sigma)
    else phot
  ⟨filters, component, none, maggies, pnoise_sigma, snr,
    List.replicate phot.length true, spec, phot⟩

/-- Claim C4: with noise injection disabled, the returned `maggies` equal the
noiseless `true_maggies` entry-for-entry, exactly — no noise term is added. -/
theorem load_obs_no_noise (filters : List FilterBand) (component : List ℤ)
    (spec phot normalDraws : List ℚ) (snr : ℚ) :
    (load_obs filters component spec phot normalDraws snr false).maggies =
      (load_obs filters component spec phot normalDraws snr false).true_maggies :=
  rfl

/-- Claim C10: for either noise setting, the reported `maggies_unc` is
`true_maggies / snr` entry-for-entry — the uncertainty is computed from the
noiseless photometry before any noise is added, so enabling noise never
changes it. -/
theorem load_obs_unc (filters : List FilterBand) (component : List ℤ)
    (spec phot normalDraws : List ℚ) (snr : ℚ) (add_noise : Bool) :
    (load_obs filters component spec phot normalDraws snr add_noise).maggies_unc =
      ((load_obs filters component spec phot normalDraws snr
        add_noise).true_maggies).map (fun x => x / snr) ∧
    (load_obs filters component spec phot normalDraws snr add_noise).maggies_unc =
      (load_obs filters component spec phot normalDraws snr false).maggies_unc :=
  ⟨rfl, rfl⟩

/-- Lines 276-284 of `SpatialSedModel.sed`: the flux clamp.  The `try` body
computes `tiny = 1.0/len(spec) * spec[spec > 0].min()` and replaces every
entry below `tiny` by `tiny`; a `ZeroDivisionError` (empty spectrum) or a
`ValueError` (`min` of an empty selection: no positive entry) is swallowed by
the bare `except`, leaving the spectrum unmodified. -/
def clampSpec (spec : List ℚ) : List ℚ :=
  if spec.length = 0 then spec
  else
    match (spec.filter (fun x => 0 < x)).min? with
    | none => spec
    | some m =>
        let tiny := 1 / (spec.length : ℚ) * m
        spec.map (fun x => if x < tiny then tiny else x)

/-- Claim C5: if the spectrum has a positive entry (its positive selection
has minimum `m`), then after the clamp every entry is at least
`tiny = (1/len) * m`; if it has no positive entry, the clamp returns the
spectrum unmodified (the swallowed-exception path), never raising. -/
theorem clampSpec_spec (spec : List ℚ) :
    (∀ m, (spec.filter (fun x => 0 < x)).min? = some m →
      ∀ y ∈ clampSpec spec, 1 / (spec.length : ℚ) * m ≤ y) ∧
    ((spec.filter (fun x => 0 < x)) = [] → clampSpec spec = spec) := by
  constructor
  · intro m hm y hy
    rw [clampSpec] at hy
    by_cases hlen : spec.length = 0
    · rw [List.length_eq_zero.1 hlen] at hm
      simp at hm
    · rw [if_neg hlen, hm] at hy
      simp only [List.mem_map] at hy
      obtain ⟨x, hx, rfl⟩ := hy
      by_cases hxt : x < 1 / (spec.length : ℚ) * m
      · rw [if_pos hxt]
      · rw [if_neg hxt]
        exact le_of_not_lt hxt
  · intro hfil
    by_cases hlen : spec.length = 0
    · rw [clampSpec, if_pos hlen]
    · rw [clampSpec, if_neg hlen, hfil]
      rfl

/-- Witness for C5: a spectrum with positive entries is clamped to at least
`(1/3) * 2`, and an all-non-positive spectrum passes through unmodified. -/
theorem clampSpec_spec_witness :
    1 / ((([-1, 2, 4] : List ℚ).length : ℚ)) * 2 ≤ 2/3 ∧
    clampSpec [0, -1] = [0, -1] :=
  ⟨(clampSpec_spec [-1, 2, 4]).1 2 (by rfl) (2/3)
      (by norm_num [clampSpec, List.filter, List.min?]),
    (clampSpec_spec [0, -1]).2 (by rfl)⟩

end SpatialSed
